/-
Verification of the tisane-relay event plane against its specification.

The Rust sources (src/main.rs, src/db.rs, src/utils.rs) are shallowly
embedded below:
  * JSON values (`serde_json::Value`) as an inductive `Json`; its compact
    textual serialization `Json.render` models `Value::to_string()` (string
    escaping is not reproduced; no theorem depends on the concrete text,
    only on serialization being a fixed function of the value);
  * byte strings that feed the hash / signature primitives are modelled as
    the Lean `String` holding the same text (UTF-8 encoding is injective,
    so this is a transparent renaming); header bytes, which are inspected
    byte by byte, are modelled as `List Nat`;
  * the cryptographic primitives (BLAKE3, `VerifyingKey::from_bytes`,
    `sign::verify`) are black-box capabilities, kept as an explicit
    `Crypto` parameter, exactly as the spec declares them out of scope;
  * the Postgres `events` table as a list of rows plus the next value of
    the `server_seq` sequence; SQL queries become list operations
    (`ORDER BY` is an explicit `mergeSort`, `LIMIT n` a `take`; SQL
    three-valued logic makes rows with a NULL `occurred_at` fail the
    replication-cursor WHERE clause, which the embedding reproduces);
  * the async handlers become pure functions from their inputs and the
    store to a `HandlerResult` (status code, JSON body, resulting store).
-/
import Mathlib

namespace TisaneRelay

/-! ## JSON values (serde_json::Value) -/

inductive Json where
  | null : Json
  | bool (b : Bool) : Json
  | num (n : Int) : Json
  | str (s : String) : Json
  | arr (elems : List Json) : Json
  | obj (fields : List (String × Json)) : Json


/-- Object member lookup, `Value::get(key)`; `None` on non-objects. -/
def Json.get (j : Json) (k : String) : Option Json :=
  match j with
  | .obj fields => List.lookup k fields
  | _ => none

/-- String extraction, `Value::as_str()`. -/
def Json.asStr : Json → Option String
  | .str s => some s
  | _ => none

mutual

/-- Compact serialization, `Value::to_string()`, used both for the
payload hash and for the signature subject bytes. -/
def Json.render : Json → String
  | .null => "null"
  | .bool true => "true"
  | .bool false => "false"
  | .num n => toString n
  | .str s => "\"" ++ s ++ "\""
  | .arr elems => "[" ++ Json.renderList elems ++ "]"
  | .obj fields => "\x7b" ++ Json.renderFields fields ++ "\x7d"

def Json.renderList : List Json → String
  | [] => ""
  | [x] => Json.render x
  | x :: xs => Json.render x ++ "," ++ Json.renderList xs

def Json.renderFields : List (String × Json) → String
  | [] => ""
  | [(k, v)] => "\"" ++ k ++ "\":" ++ Json.render v
  | (k, v) :: xs => "\"" ++ k ++ "\":" ++ Json.render v ++ "," ++ Json.renderFields xs

end

/-! ## Hex encoding / decoding (the `hex` crate) -/

/-- Value of one hex digit (`0-9a-fA-F`), as in `hex::decode`. -/
def hexVal (c : Char) : Option Nat :=
  if '0' ≤ c ∧ c ≤ '9' then some (c.toNat - 48)
  else if 'a' ≤ c ∧ c ≤ 'f' then some (c.toNat - 87)
  else if 'A' ≤ c ∧ c ≤ 'F' then some (c.toNat - 55)
  else none

def hexDecodeChars : List Char → Option (List Nat)
  | [] => some []
  | [_] => none
  | c1 :: c2 :: rest =>
    match hexVal c1, hexVal c2, hexDecodeChars rest with
    | some h, some l, some bs => some ((16 * h + l) :: bs)
    | _, _, _ => none

/-- Hex decoding, `hex::decode`: even-length hex text to bytes, `None` on
any bad digit or odd length. -/
def hexDecode (s : String) : Option (List Nat) :=
  hexDecodeChars s.data

def hexDigitChar (n : Nat) : Char :=
  if n < 10 then Char.ofNat (48 + n) else Char.ofNat (87 + n % 16)

/-- Hex encoding, `hex::encode`: bytes to lowercase hex text. -/
def hexEncode (bs : List Nat) : String :=
  String.mk (bs.foldr (fun b acc => hexDigitChar (b / 16 % 16) :: hexDigitChar (b % 16) :: acc) [])

/-! ## The crypto facade (BLAKE3 + Ed25519, black boxes) -/

/-- The cryptographic capabilities used by the relay, kept abstract:
`blake3` is `cid_blake3` on the payload bytes, `vkOk` is whether
`VerifyingKey::from_bytes` accepts a 32-byte candidate key, and `verify`
is `sign::verify` of key bytes / message bytes / 64 signature bytes. -/
structure Crypto where
  blake3 : String → List Nat
  vkOk : List Nat → Bool
  verify : List Nat → String → List Nat → Bool

/-- The canonical payload bytes: the serialized JSON text, or the empty
byte string when the payload is absent (main.rs lines 113-117 and
utils.rs lines 7-14). -/
def payloadBytesStr : Option Json → String
  | some p => Json.render p
  | none => ""

/-- utils.rs `compute_payload_hash`: hex of BLAKE3 of the canonical
payload bytes. -/
def computePayloadHash (c : Crypto) (payload : Option Json) : String :=
  hexEncode (c.blake3 (payloadBytesStr payload))

/-! ## Event rows and the store (db.rs) -/

/-- db.rs `EventInput`.  `event_id` (a UUID) is a 128-bit value, modelled
as `Nat`; timestamps are modelled as `Int` (microseconds since epoch —
only their order matters). -/
structure EventInput where
  event_id : Nat
  author_pubkey : String
  signature : String
  payload_hash : String
  device_id : Option String
  author_id : Option String
  content_id : Option String
  event_type : Option String
  payload_json : Option Json
  occurred_at : Option Int
  lamport : Option Int


/-- db.rs `Event`: the same fields as `EventInput` plus the
server-assigned `server_seq`, modelled as the pair. -/
structure StoredEvent where
  server_seq : Int
  ev : EventInput


/-- The `events` table plus the state of the `server_seq` sequence. -/
structure Store where
  rows : List StoredEvent
  nextSeq : Int


def Store.empty : Store := { rows := [], nextSeq := 1 }

/-- One `INSERT ... ON CONFLICT (event_id) DO NOTHING RETURNING server_seq`
statement (db.rs lines 57-70): on a conflicting `event_id` nothing changes
and no sequence is returned. (Whether the underlying sequence also burns a
value on conflict is unobservable here; the model advances it only on a
real insert.) -/
def insertOne (s : Store) (ev : EventInput) : Store × Option Int :=
  if s.rows.any (fun r => r.ev.event_id == ev.event_id) then (s, none)
  else ({ rows := s.rows ++ [{ server_seq := s.nextSeq, ev := ev }], nextSeq := s.nextSeq + 1 },
        some s.nextSeq)

/-- db.rs `insert_events`: one statement per event, in batch order,
collecting the sequences of the newly inserted rows. -/
def insertEvents : Store → List EventInput → Store × List Int
  | s, [] => (s, [])
  | s, ev :: rest =>
    let p := insertOne s ev
    let q := insertEvents p.1 rest
    (q.1, (match p.2 with | some seqv => [seqv] | none => []) ++ q.2)

/-- db.rs `fetch_events_since`:
`SELECT ... WHERE server_seq > $1 ORDER BY server_seq ASC LIMIT $2`,
then `next_cursor = events.last().server_seq` or the input cursor.
(A negative SQL LIMIT is a store error surfaced as 500; the model takes
the limit as a `Nat`.) -/
def fetchEventsSince (s : Store) (since : Int) (lim : Nat) : List StoredEvent × Int :=
  let evs := ((s.rows.filter (fun r => since < r.server_seq)).mergeSort
      (fun a b => a.server_seq ≤ b.server_seq)).take lim
  (evs, match evs.getLast? with
        | some e => e.server_seq
        | none => since)

/-- The caller-side iteration described by the spec: feed `next_cursor`
back until the returned batch is empty (fuel-bounded). -/
def pullAll (s : Store) (c : Int) (lim : Nat) : Nat → List StoredEvent
  | 0 => []
  | fuel + 1 =>
    let p := fetchEventsSince s c lim
    if p.1.isEmpty then [] else p.1 ++ pullAll s p.2 lim fuel

/-- The replication-cursor WHERE clause of db.rs `fetch_replication_batch`:
`(occurred_at > $1) OR (occurred_at = $1 AND event_id > $2)`.
Under SQL three-valued logic a NULL `occurred_at` makes both disjuncts
non-TRUE, so such rows are filtered out. -/
def replAfter (lastTime : Int) (lastId : Nat) (r : StoredEvent) : Bool :=
  match r.ev.occurred_at with
  | none => false
  | some t => lastTime < t ∨ (t = lastTime ∧ lastId < r.ev.event_id)

/-- The `ORDER BY occurred_at ASC, event_id ASC` comparator (Postgres
sorts NULLs last in ascending order; rows reaching the sort here always
carry a timestamp). -/
def replLe (a b : StoredEvent) : Bool :=
  match a.ev.occurred_at, b.ev.occurred_at with
  | some ta, some tb => ta < tb ∨ (ta = tb ∧ a.ev.event_id ≤ b.ev.event_id)
  | some _, none => true
  | none, some _ => false
  | none, none => true

/-- db.rs `fetch_replication_batch` (lines 172-204). -/
def fetchReplicationBatch (s : Store) (lastTime : Int) (lastId : Nat) (lim : Nat) :
    List StoredEvent :=
  ((s.rows.filter (replAfter lastTime lastId)).mergeSort replLe).take lim

/-! ## Peers (db.rs) -/

structure Peer where
  peer_id : Nat
  url : String
  shared_secret : String
  last_cursor_time : Int
  last_cursor_id : Nat
  health : String


/-- db.rs `update_peer_cursor`:
`UPDATE peers SET last_cursor_time = $1, last_cursor_id = $2 WHERE peer_id = $3`. -/
def updatePeerCursor (peers : List Peer) (pid : Nat) (t : Int) (eid : Nat) : List Peer :=
  peers.map (fun p =>
    if p.peer_id == pid then { p with last_cursor_time := t, last_cursor_id := eid } else p)

/-! ## The ingestion pipeline (main.rs `validate_and_insert`) -/

/-- The per-event body of the loop in `validate_and_insert`
(main.rs lines 97-122): overwrite `payload_hash` with the relay-computed
hash, then hex-decode key and signature, build the verifying key
(substituting the all-zero 32-byte array when the decoded key is not
32 bytes, per `try_into().unwrap_or([0u8; 32])`), require a 64-byte
signature, and verify. -/
def processEvent (c : Crypto) (ev0 : EventInput) : Except (Nat × String) EventInput :=
  let ev := { ev0 with payload_hash := computePayloadHash c ev0.payload_json }
  match hexDecode ev.author_pubkey with
  | none => .error (400, "invalid author_pubkey hex")
  | some pk =>
    match hexDecode ev.signature with
    | none => .error (400, "invalid signature hex")
    | some sg =>
      let key32 := if pk.length = 32 then pk else List.replicate 32 0
      if c.vkOk key32 = false then .error (401, "invalid public key")
      else if sg.length ≠ 64 then .error (401, "invalid signature length")
      else if c.verify key32 (payloadBytesStr ev.payload_json) sg then .ok ev
      else .error (401, "invalid signature")

/-- The whole validation loop: stop at the first failing event. -/
def processEvents (c : Crypto) : List EventInput → Except (Nat × String) (List EventInput)
  | [] => .ok []
  | ev :: rest =>
    match processEvent c ev with
    | .error e => .error e
    | .ok ev1 =>
      match processEvents c rest with
      | .error e => .error e
      | .ok rest1 => .ok (ev1 :: rest1)

/-- main.rs `validate_and_insert`: validate every event, then insert.
The store is touched only after the whole batch validated.  (A store
error surfaced as 500 is outside the model: the modelled store cannot
fail.) -/
def validateAndInsert (c : Crypto) (s : Store) (events : List EventInput) :
    Except (Nat × String) (Store × List Int) :=
  match processEvents c events with
  | .error e => .error e
  | .ok evs => .ok (insertEvents s evs)

/-! ## HTTP handlers (main.rs) -/

/-- A handler's observable outcome: status code, JSON body (either
`{"inserted": n}` or `{"error": msg}`), and the resulting store. -/
inductive RespBody where
  | inserted (n : Nat) : RespBody
  | err (msg : String) : RespBody
deriving DecidableEq

structure HandlerResult where
  status : Nat
  body : RespBody
  store : Store

/-- The schema validation applied to one event by `push_handler`
(main.rs lines 139-176). -/
def schemaCheckEvent (ev : EventInput) : Option String :=
  match ev.event_type with
  | none => none
  | some etype =>
    if etype = "read.completed" ∨ etype = "derivative.created" ∨
        etype = "citation.created" ∨ etype = "value.snapshot" then
      match ev.payload_json with
      | some payload =>
        let hasContentId :=
          match (payload.get "content_id").bind Json.asStr with
          | some str => decide (str ≠ "")
          | none => false
        if hasContentId = false then
          some ("missing or empty content_id for event type \x27" ++ etype ++ "\x27")
        else if etype = "value.snapshot" ∧
            ¬((payload.get "window_start").isSome ∧ (payload.get "window_end").isSome) then
          some "missing window_start or window_end for value.snapshot"
        else none
      | none => some ("missing payload for event type \x27" ++ etype ++ "\x27")
    else none

/-- First schema error in the batch, if any. -/
def schemaCheck : List EventInput → Option String
  | [] => none
  | ev :: rest =>
    match schemaCheckEvent ev with
    | some msg => some msg
    | none => schemaCheck rest

/-- main.rs `push_handler` (lines 133-182): batch-size gate, schema
validation, then `validate_and_insert`. -/
def pushHandler (c : Crypto) (s : Store) (events : List EventInput) : HandlerResult :=
  if 100 < events.length then
    { status := 400, body := .err "batch size exceeds limit (100)", store := s }
  else
    match schemaCheck events with
    | some msg => { status := 400, body := .err msg, store := s }
    | none =>
      match validateAndInsert c s events with
      | .ok (s1, seqs) => { status := 200, body := .inserted seqs.length, store := s1 }
      | .error (code, msg) => { status := code, body := .err msg, store := s }

/-- The raw header bytes of a replication request.  `none` means the
header is absent. -/
structure Headers where
  xPeerToken : Option (List Nat)
  xRelayId : Option (List Nat)
  xHop : Option (List Nat)

/-- Header text extraction, `HeaderValue::to_str`: succeeds iff every
byte is visible ASCII (32-126) or horizontal tab. -/
def headerToStr (bs : List Nat) : Option String :=
  if bs.all (fun b => (32 ≤ b ∧ b < 127) ∨ b = 9) then
    some (String.mk (bs.map Char.ofNat))
  else none

/-- Rust `str::parse::<i32>`: optional single sign, then a nonempty run
of ASCII digits, rejecting anything outside the i32 range. -/
def parseI32 (str : String) : Option Int :=
  let chars := str.data
  let signed : Int × List Char :=
    match chars with
    | '+' :: rest => (1, rest)
    | '-' :: rest => (-1, rest)
    | _ => (1, chars)
  if signed.2 = [] then none
  else if signed.2.all Char.isDigit then
    let v : Int := signed.1 * (signed.2.foldl (fun a d => a * 10 + (d.toNat - 48)) 0 : Nat)
    if -2147483648 ≤ v ∧ v ≤ 2147483647 then some v else none
  else none

/-- main.rs `replicate_handler` (lines 198-240): peer-token auth, loop
guard, hop guard, then the shared `validate_and_insert`.  `relayId` is
`state.relay_id.to_string()`; `peers` stands for the peers table queried
by `validate_peer_token` (the spec gives `shared_secret` a unique
index, so `find?` models the SQL lookup). -/
def replicateHandler (c : Crypto) (peers : List Peer) (relayId : String) (s : Store)
    (h : Headers) (events : List EventInput) : HandlerResult :=
  match h.xPeerToken with
  | none => { status := 401, body := .err "missing X-Peer-Token", store := s }
  | some tokenBytes =>
    let token := (headerToStr tokenBytes).getD ""
    match peers.find? (fun p => p.shared_secret == token) with
    | none => { status := 401, body := .err "invalid peer token", store := s }
    | some _ =>
      let loopHit :=
        match h.xRelayId with
        | some rb =>
          match headerToStr rb with
          | some rid => rid == relayId
          | none => false
        | none => false
      if loopHit then
        { status := 400, body := .err "loop detected: my own relay id", store := s }
      else
        let hopHit :=
          match h.xHop with
          | some hb =>
            match headerToStr hb with
            | some hs =>
              match parseI32 hs with
              | some hops => decide (3 < hops)
              | none => false
            | none => false
          | none => false
        if hopHit then
          { status := 400, body := .err "max hops exceeded", store := s }
        else
          match validateAndInsert c s events with
          | .ok (s1, seqs) => { status := 200, body := .inserted seqs.length, store := s1 }
          | .error (code, msg) => { status := code, body := .err msg, store := s }

/-- The common tail of both handlers: the HTTP rendering of
`validate_and_insert`'s outcome. -/
def ingestOutcome (c : Crypto) (s : Store) (events : List EventInput) : HandlerResult :=
  match validateAndInsert c s events with
  | .ok (s1, seqs) => { status := 200, body := .inserted seqs.length, store := s1 }
  | .error (code, msg) => { status := code, body := .err msg, store := s }

/-! ## The replication worker (main.rs `replication_worker`) -/

/-- One per-peer step of the worker cycle (main.rs lines 266-327): fetch
up to 50 events past the peer's composite cursor; if the batch is
nonempty, POST it (`resp` is the transport outcome: `none` a transport
error, `some st` an HTTP status) and advance the cursor to the last
event's `(occurred_at, event_id)` — substituting the wall clock `now`
for an absent `occurred_at` — exactly when the status is 2xx. -/
def replicationStep (s : Store) (peers : List Peer) (peer : Peer)
    (resp : Option Nat) (now : Int) : List Peer :=
  let batch := fetchReplicationBatch s peer.last_cursor_time peer.last_cursor_id 50
  if batch.isEmpty then peers
  else
    match resp with
    | some st =>
      if 200 ≤ st ∧ st < 300 then
        match batch.getLast? with
        | some last =>
          updatePeerCursor peers peer.peer_id (last.ev.occurred_at.getD now) last.ev.event_id
        | none => peers
      else peers
    | none => peers

/-! ## Reachable stores -/

/-- Store states reachable from the empty store through the two ingestion
endpoints (the only writers of the events table). -/
inductive Reachable (c : Crypto) : Store → Prop where
  | init : Reachable c Store.empty
  | push (s : Store) (events : List EventInput) :
      Reachable c s → Reachable c (pushHandler c s events).store
  | repl (s : Store) (peers : List Peer) (relayId : String) (h : Headers)
      (events : List EventInput) :
      Reachable c s → Reachable c (replicateHandler c peers relayId s h events).store

/-- Store well-formedness: rows in strictly ascending `server_seq` order
(the physical order produced by appending with an increasing sequence),
pairwise-distinct `event_id`s (the primary key), and every assigned
sequence below the next one. -/
def Wf (s : Store) : Prop :=
  s.rows.Pairwise (fun a b => a.server_seq < b.server_seq ∧ a.ev.event_id ≠ b.ev.event_id)
  ∧ ∀ r ∈ s.rows, r.server_seq < s.nextSeq

/-! ## Verification predicates -/

/-- The key bytes `validate_and_insert` actually verifies against:
`pubkey_bytes.try_into().unwrap_or([0u8; 32])` (main.rs line 107)
substitutes the all-zero 32-byte array when the decoded key is not
exactly 32 bytes long. -/
def effKey (pk : List Nat) : List Nat :=
  if pk.length = 32 then pk else List.replicate 32 0

/-- What ingestion actually guarantees about an event it lets through:
key and signature hex-decode, the signature is 64 bytes, and the
signature verifies against the *effective* key (the decoded
`author_pubkey` when it is 32 bytes, the all-zero key otherwise). -/
def effVerifies (c : Crypto) (ev : EventInput) : Prop :=
  ∃ pk sg, hexDecode ev.author_pubkey = some pk ∧ hexDecode ev.signature = some sg ∧
    sg.length = 64 ∧ c.vkOk (effKey pk) = true ∧
    c.verify (effKey pk) (payloadBytesStr ev.payload_json) sg = true

/-- Modelled from the spec (§4.1): `verify_signature(pubkey_hex,
payload_bytes, signature_hex)` returns false on malformed hex, decoded
key length ≠ 32 bytes, decoded signature length ≠ 64 bytes, or
verification failure.  This is the claim-side meaning of "the signature
verifies against its author_pubkey over the canonical payload bytes". -/
def specSigVerifies (c : Crypto) (ev : EventInput) : Prop :=
  ∃ pk sg, hexDecode ev.author_pubkey = some pk ∧ pk.length = 32 ∧
    hexDecode ev.signature = some sg ∧ sg.length = 64 ∧
    c.verify pk (payloadBytesStr ev.payload_json) sg = true

/-- The strict lexicographic `(occurred_at, event_id)` order on rows that
carry a timestamp (the replication scan order). -/
def replPairLt (a b : StoredEvent) : Prop :=
  match a.ev.occurred_at, b.ev.occurred_at with
  | some ta, some tb => ta < tb ∨ (ta = tb ∧ a.ev.event_id < b.ev.event_id)
  | _, _ => False

/-! ## Concrete test fixtures -/

/-- A concrete crypto facade in which every key is accepted and every
signature verifies: used to exhibit control-flow differences that do not
depend on the cryptography. -/
def advCrypto : Crypto :=
  { blake3 := fun _ => [], vkOk := fun _ => true, verify := fun _ _ _ => true }

/-- A string of 128 hex zeros: a well-formed 64-byte signature encoding. -/
def zeros128 : String := String.mk (List.replicate 128 '0')

def baseEvent : EventInput :=
  { event_id := 0, author_pubkey := "aa", signature := zeros128, payload_hash := "client-hash",
    device_id := none, author_id := none, content_id := none, event_type := none,
    payload_json := none, occurred_at := none, lamport := none }

/-- An event whose `author_pubkey` decodes to a single byte (not 32). -/
def shortKeyEvent : EventInput := { baseEvent with event_id := 7 }

/-- An event whose `author_pubkey` is not valid hex. -/
def badHexEvent : EventInput := { baseEvent with event_id := 9, author_pubkey := "zz" }

/-- A `value.snapshot` event with no payload: rejected by the push
endpoint's schema validation. -/
def snapEvent : EventInput :=
  { baseEvent with event_id := 11, author_pubkey := "zz", event_type := some "value.snapshot" }

/-- A batch of 101 events: over the push endpoint's batch-size limit. -/
def bigBatch : List EventInput :=
  (List.range 101).map (fun i => { badHexEvent with event_id := 100 + i })

def peer0 : Peer :=
  { peer_id := 1, url := "http://peer", shared_secret := "s", last_cursor_time := 0,
    last_cursor_id := 0, health := "healthy" }

/-- Headers of a well-authenticated replication request from `peer0`
(token "s"), carrying neither `X-Relay-Id` nor `X-Hop`. -/
def peerHeaders : Headers := { xPeerToken := some [115], xRelayId := none, xHop := none }

/-- A one-row store used to instantiate hypotheses concretely. -/
def wStore : Store := { rows := [{ server_seq := 1, ev := baseEvent }], nextSeq := 2 }

/-- The byte string "RID". -/
def ridBytes : List Nat := [82, 73, 68]

/-- The byte string "5". -/
def hop5Bytes : List Nat := [53]

/-- A store with one replication-visible row (timestamped). -/
def wReplStore : Store :=
  { rows := [{ server_seq := 1, ev := { baseEvent with event_id := 42, occurred_at := some 10 } }],
    nextSeq := 2 }

/-- A store with a timestamped row and a row without `occurred_at`. -/
def wC7Store : Store :=
  { rows := [{ server_seq := 1, ev := { baseEvent with event_id := 42, occurred_at := some 10 } },
             { server_seq := 2, ev := { baseEvent with event_id := 43, occurred_at := none } }],
    nextSeq := 3 }

/-! ## Insert lemmas -/

lemma insertOne_of_present (s : Store) (e : EventInput)
    (h : ∃ r ∈ s.rows, r.ev.event_id = e.event_id) : insertOne s e = (s, none) := by
  obtain ⟨r, hr, hid⟩ := h
  unfold insertOne
  rw [if_pos]
  rw [List.any_eq_true]
  exact ⟨r, hr, by simp [hid]⟩

lemma insertOne_of_absent (s : Store) (e : EventInput)
    (h : ¬ ∃ r ∈ s.rows, r.ev.event_id = e.event_id) :
    insertOne s e =
      ({ rows := s.rows ++ [{ server_seq := s.nextSeq, ev := e }], nextSeq := s.nextSeq + 1 },
       some s.nextSeq) := by
  unfold insertOne
  rw [if_neg]
  intro hc
  rw [List.any_eq_true] at hc
  obtain ⟨r, hr, hid⟩ := hc
  exact h ⟨r, hr, by simpa using hid⟩

lemma insertEvents_count : ∀ (b : List EventInput) (s : Store),
    (insertEvents s b).1.rows.length = s.rows.length + (insertEvents s b).2.length
  | [], s => by simp [insertEvents]
  | ev :: rest, s => by
    by_cases h : ∃ r ∈ s.rows, r.ev.event_id = ev.event_id
    · simp only [insertEvents, insertOne_of_present s ev h]
      have := insertEvents_count rest s
      simpa using this
    · simp only [insertEvents, insertOne_of_absent s ev h]
      have := insertEvents_count rest
        { rows := s.rows ++ [{ server_seq := s.nextSeq, ev := ev }], nextSeq := s.nextSeq + 1 }
      simp at this
      simp [this]
      omega

lemma insertEvents_filter_frozen (x : Nat) : ∀ (b : List EventInput) (s : Store),
    (∃ r ∈ s.rows, r.ev.event_id = x) →
    (insertEvents s b).1.rows.filter (fun r => r.ev.event_id == x) =
      s.rows.filter (fun r => r.ev.event_id == x)
  | [], s, _ => by simp [insertEvents]
  | ev :: rest, s, hpres => by
    by_cases h : ∃ r ∈ s.rows, r.ev.event_id = ev.event_id
    · simp only [insertEvents, insertOne_of_present s ev h]
      exact insertEvents_filter_frozen x rest s hpres
    · simp only [insertEvents, insertOne_of_absent s ev h]
      have hne : ev.event_id ≠ x := by
        intro hx
        obtain ⟨r, hr, hid⟩ := hpres
        exact h ⟨r, hr, by rw [hid, hx]⟩
      have hpres' : ∃ r ∈ (s.rows ++ [{ server_seq := s.nextSeq, ev := ev }] :
          List StoredEvent), r.ev.event_id = x := by
        obtain ⟨r, hr, hid⟩ := hpres
        exact ⟨r, List.mem_append_left _ hr, hid⟩
      have := insertEvents_filter_frozen x rest
        { rows := s.rows ++ [{ server_seq := s.nextSeq, ev := ev }], nextSeq := s.nextSeq + 1 }
        hpres'
      rw [this]
      simp [List.filter_append, hne]

lemma insertEvents_single_present (s : Store) (e : EventInput)
    (h : ∃ r ∈ s.rows, r.ev.event_id = e.event_id) :
    insertEvents s [e] = (s, []) := by
  simp [insertEvents, insertOne_of_present s e h]

/-- C2: for any event `e` and any store state, inserting a batch
containing `e` when an event with the same `event_id` is already stored
leaves the rows carrying that `event_id` (hence the existing row and its
`server_seq`) unchanged and stores no new row for `e`; every reported
sequence corresponds to a newly inserted row, so none is reported for
`e`; and the second insert of the same event reports 0 inserted while
exactly one row exists. -/
theorem claim_C2 (s : Store) (e : EventInput) (b : List EventInput)
    (hpresent : ∃ r ∈ s.rows, r.ev.event_id = e.event_id) (_hmem : e ∈ b) :
    (insertEvents s b).1.rows.filter (fun r => r.ev.event_id == e.event_id) =
      s.rows.filter (fun r => r.ev.event_id == e.event_id)
    ∧ (insertEvents s b).1.rows.length = s.rows.length + (insertEvents s b).2.length
    ∧ insertEvents s [e] = (s, [])
    ∧ insertEvents (insertEvents Store.empty [e]).1 [e] = ((insertEvents Store.empty [e]).1, [])
    ∧ ((insertEvents Store.empty [e]).1.rows.filter
         (fun r => r.ev.event_id == e.event_id)).length = 1 := by
  have hrows : (insertEvents Store.empty [e]).1 =
      { rows := [{ server_seq := 1, ev := e }], nextSeq := 2 } := by
    simp [insertEvents, insertOne, Store.empty]
  refine ⟨insertEvents_filter_frozen _ b s hpresent, insertEvents_count b s,
    insertEvents_single_present s e hpresent, ?_, ?_⟩
  · rw [hrows]
    exact insertEvents_single_present _ e ⟨_, List.Mem.head _, rfl⟩
  · rw [hrows]
    simp

theorem claim_C2_witness : insertEvents wStore [baseEvent] = (wStore, []) :=
  (claim_C2 wStore baseEvent [baseEvent] ⟨_, List.Mem.head _, rfl⟩ (List.Mem.head _)).2.2.1

lemma processEvent_ok (c : Crypto) (ev ev' : EventInput) (h : processEvent c ev = .ok ev') :
    ev' = { ev with payload_hash := computePayloadHash c ev.payload_json }
    ∧ effVerifies c ev' := by
  unfold processEvent at h
  dsimp only at h
  cases hpk : hexDecode ev.author_pubkey with
  | none => rw [hpk] at h; exact absurd h (by simp)
  | some pk =>
    rw [hpk] at h
    cases hsg : hexDecode ev.signature with
    | none => rw [hsg] at h; exact absurd h (by simp)
    | some sg =>
      rw [hsg] at h
      dsimp only at h
      by_cases hvk : c.vkOk (if pk.length = 32 then pk else List.replicate 32 0) = false
      · rw [if_pos hvk] at h; exact absurd h (by simp)
      · rw [if_neg hvk] at h
        by_cases hlen : sg.length ≠ 64
        · rw [if_pos hlen] at h; exact absurd h (by simp)
        · rw [if_neg hlen] at h
          by_cases hvf : c.verify (if pk.length = 32 then pk else List.replicate 32 0)
              (payloadBytesStr ev.payload_json) sg = true
          · rw [if_pos hvf] at h
            have hev : ev' = { ev with payload_hash := computePayloadHash c ev.payload_json } := by
              cases h
              rfl
            refine ⟨hev, ?_⟩
            rw [hev]
            refine ⟨pk, sg, hpk, hsg, by omega, ?_, ?_⟩
            · simpa [effKey] using hvk
            · simpa [effKey] using hvf
          · rw [if_neg hvf] at h; exact absurd h (by simp)



lemma processEvents_ok_mem (c : Crypto) : ∀ {evs evs' : List EventInput},
    processEvents c evs = .ok evs' → ∀ e' ∈ evs', ∃ e ∈ evs, processEvent c e = .ok e'
  | [], evs', h => by
    simp only [processEvents] at h
    cases h
    intro e' he'
    exact absurd he' (List.not_mem_nil _)
  | ev :: rest, evs', h => by
    simp only [processEvents] at h
    cases hp : processEvent c ev with
    | error e => rw [hp] at h; exact absurd h (by simp)
    | ok ev1 =>
      rw [hp] at h
      cases hr : processEvents c rest with
      | error e => rw [hr] at h; exact absurd h (by simp)
      | ok rest1 =>
        rw [hr] at h
        cases h
        intro e' he'
        rcases List.mem_cons.mp he' with he | he
        · exact ⟨ev, List.Mem.head _, he ▸ hp⟩
        · obtain ⟨e, hmem, hok⟩ := processEvents_ok_mem c hr e' he
          exact ⟨e, List.Mem.tail _ hmem, hok⟩

lemma insertEvents_mem : ∀ (b : List EventInput) (s : Store) (r : StoredEvent),
    r ∈ (insertEvents s b).1.rows → r ∈ s.rows ∨ ∃ ev ∈ b, r.ev = ev
  | [], s, r, h => by
    simp only [insertEvents] at h
    exact .inl h
  | ev :: rest, s, r, h => by
    by_cases hc : ∃ q ∈ s.rows, q.ev.event_id = ev.event_id
    · simp only [insertEvents, insertOne_of_present s ev hc] at h
      rcases insertEvents_mem rest s r h with h1 | ⟨e, he, hr⟩
      · exact .inl h1
      · exact .inr ⟨e, List.Mem.tail _ he, hr⟩
    · simp only [insertEvents, insertOne_of_absent s ev hc] at h
      rcases insertEvents_mem rest _ r h with h1 | ⟨e, he, hr⟩
      · rcases List.mem_append.mp h1 with h2 | h2
        · exact .inl h2
        · rcases List.mem_singleton.mp h2 with rfl
          exact .inr ⟨ev, List.Mem.head _, rfl⟩
      · exact .inr ⟨e, List.Mem.tail _ he, hr⟩

lemma validateAndInsert_store_mem (c : Crypto) (s : Store) (events : List EventInput)
    (p : Store × List Int) (h : validateAndInsert c s events = .ok p)
    (r : StoredEvent) (hr : r ∈ p.1.rows) :
    r ∈ s.rows ∨ ∃ e, processEvent c e = .ok r.ev := by
  unfold validateAndInsert at h
  cases hp : processEvents c events with
  | error e => rw [hp] at h; exact absurd h (by simp)
  | ok evs =>
    rw [hp] at h
    have h2 : insertEvents s evs = p := by injection h
    rw [← h2] at hr
    rcases insertEvents_mem evs s r hr with h1 | ⟨e', he', hre⟩
    · exact .inl h1
    · obtain ⟨e, _, hok⟩ := processEvents_ok_mem c hp e' he'
      exact .inr ⟨e, hre ▸ hok⟩

lemma pushHandler_store (c : Crypto) (s : Store) (events : List EventInput) :
    (pushHandler c s events).store = s
    ∨ ∃ seqs, validateAndInsert c s events = .ok ((pushHandler c s events).store, seqs) := by
  unfold pushHandler
  by_cases hlen : 100 < events.length
  · rw [if_pos hlen]; exact .inl rfl
  · rw [if_neg hlen]
    cases hsc : schemaCheck events with
    | some msg => exact .inl rfl
    | none =>
      cases hv : validateAndInsert c s events with
      | ok p =>
        obtain ⟨s1, seqs⟩ := p
        exact .inr ⟨seqs, rfl⟩
      | error e =>
        rcases e with ⟨code, msg⟩
        exact .inl rfl

lemma replicateHandler_store (c : Crypto) (peers : List Peer) (relayId : String) (s : Store)
    (h : Headers) (events : List EventInput) :
    (replicateHandler c peers relayId s h events).store = s
    ∨ ∃ seqs, validateAndInsert c s events =
        .ok ((replicateHandler c peers relayId s h events).store, seqs) := by
  unfold replicateHandler
  cases h.xPeerToken with
  | none => exact .inl rfl
  | some tb =>
    dsimp only
    cases (List.find? (fun p => p.shared_secret == (headerToStr tb).getD "") peers) with
    | none => exact .inl rfl
    | some p =>
      dsimp only
      split
      · exact .inl rfl
      · split
        · exact .inl rfl
        · cases hv : validateAndInsert c s events with
          | ok q =>
            obtain ⟨s1, seqs⟩ := q
            exact .inr ⟨seqs, rfl⟩
          | error e =>
            rcases e with ⟨code, msg⟩
            exact .inl rfl

/-- Every row of a reachable store was let through by `processEvent`:
transport any postcondition of `processEvent` to all stored rows. -/
lemma reachable_rows (c : Crypto) (P : EventInput → Prop)
    (hP : ∀ ev ev', processEvent c ev = .ok ev' → P ev') :
    ∀ s, Reachable c s → ∀ r ∈ s.rows, P r.ev := by
  intro s hs
  induction hs with
  | init => intro r hr; exact absurd hr (List.not_mem_nil _)
  | push s0 events _ ih =>
    intro r hr
    rcases pushHandler_store c s0 events with heq | ⟨seqs, hval⟩
    · exact ih r (heq ▸ hr)
    · rcases validateAndInsert_store_mem c s0 events _ hval r hr with h1 | ⟨e, hok⟩
      · exact ih r h1
      · exact hP e r.ev hok
  | repl s0 peers relayId hd events _ ih =>
    intro r hr
    rcases replicateHandler_store c peers relayId s0 hd events with heq | ⟨seqs, hval⟩
    · exact ih r (heq ▸ hr)
    · rcases validateAndInsert_store_mem c s0 events _ hval r hr with h1 | ⟨e, hok⟩
      · exact ih r h1
      · exact hP e r.ev hok



lemma processEvents_fail (c : Crypto) : ∀ (events : List EventInput),
    (∃ ev ∈ events, processEvent c ev = .error (401, "invalid signature")) →
    (∀ ev ∈ events, ∀ e, processEvent c ev = .error e → e = (401, "invalid signature")) →
    processEvents c events = .error (401, "invalid signature")
  | [], h, _ => by
    obtain ⟨w, hw, _⟩ := h
    exact absurd hw (List.not_mem_nil _)
  | ev :: rest, ⟨w, hw, hfail⟩, hall => by
    simp only [processEvents]
    cases hp : processEvent c ev with
    | error e =>
      rw [hall ev (List.Mem.head _) e hp]
    | ok ev1 =>
      rcases List.mem_cons.mp hw with rfl | hw'
      · rw [hp] at hfail
        exact absurd hfail (by simp)
      · have := processEvents_fail c rest ⟨w, hw', hfail⟩
          (fun e he => hall e (List.Mem.tail _ he))
        rw [this]

/-- C4: the stored `payload_hash` is relay-computed from the stored
payload; the client-supplied hash is irrelevant to ingestion. -/
theorem claim_C4 (c : Crypto) :
    (∀ s, Reachable c s → ∀ r ∈ s.rows,
       r.ev.payload_hash = computePayloadHash c r.ev.payload_json)
    ∧ ∀ (ev : EventInput) (h1 h2 : String), processEvent c { ev with payload_hash := h1 }
        = processEvent c { ev with payload_hash := h2 } := by
  constructor
  · refine reachable_rows c
      (fun e => e.payload_hash = computePayloadHash c e.payload_json) ?_
    intro ev ev' h
    rw [(processEvent_ok c ev ev' h).1]
  · intro ev h1 h2
    rfl

theorem claim_C4_witness :
    ({ shortKeyEvent with payload_hash := "" } : EventInput).payload_hash =
      computePayloadHash advCrypto
        ({ shortKeyEvent with payload_hash := "" } : EventInput).payload_json :=
  (claim_C4 advCrypto).1 _ (Reachable.push Store.empty [shortKeyEvent] Reachable.init)
    { server_seq := 1, ev := { shortKeyEvent with payload_hash := "" } } (List.Mem.head _)

/-- C3 amended: every reachable stored event's signature verifies against
the *effective* key — the decoded `author_pubkey` when it is exactly 32
bytes, the substituted all-zero key otherwise — and a batch in which some
event fails signature verification (and no event fails for another
reason) is rejected with 401 "invalid signature" with no event persisted. -/
theorem claim_C3_amended (c : Crypto) :
    (∀ s, Reachable c s → ∀ r ∈ s.rows, effVerifies c r.ev)
    ∧ (∀ s events, (∃ ev ∈ events, processEvent c ev = .error (401, "invalid signature")) →
        (∀ ev ∈ events, ∀ e, processEvent c ev = .error e → e = (401, "invalid signature")) →
        validateAndInsert c s events = .error (401, "invalid signature"))
    ∧ (∀ s events e, validateAndInsert c s events = .error e →
        (pushHandler c s events).store = s
        ∧ ∀ peers relayId hd, (replicateHandler c peers relayId s hd events).store = s) := by
  refine ⟨?_, ?_, ?_⟩
  · refine reachable_rows c (effVerifies c) ?_
    intro ev ev' h
    exact (processEvent_ok c ev ev' h).2
  · intro s events hex hall
    unfold validateAndInsert
    rw [processEvents_fail c events hex hall]
  · intro s events e hval
    rcases e with ⟨code, msg⟩
    constructor
    · unfold pushHandler
      by_cases hlen : 100 < events.length
      · rw [if_pos hlen]
      · rw [if_neg hlen]
        cases schemaCheck events with
        | some m => rfl
        | none => rw [hval]
    · intro peers relayId hd
      unfold replicateHandler
      cases hd.xPeerToken with
      | none => rfl
      | some tb =>
        dsimp only
        cases (List.find? (fun p => p.shared_secret == (headerToStr tb).getD "") peers) with
        | none => rfl
        | some p =>
          dsimp only
          split
          · rfl
          · split
            · rfl
            · rw [hval]

theorem claim_C3_counterexample :
    Reachable advCrypto (pushHandler advCrypto Store.empty [shortKeyEvent]).store
    ∧ ∃ r ∈ (pushHandler advCrypto Store.empty [shortKeyEvent]).store.rows,
        ¬ specSigVerifies advCrypto r.ev := by
  refine ⟨Reachable.push Store.empty [shortKeyEvent] Reachable.init, ?_⟩
  refine ⟨{ server_seq := 1, ev := { shortKeyEvent with payload_hash := "" } },
    List.Mem.head _, ?_⟩
  rintro ⟨pk, sg, hpk, hlen, -⟩
  have : hexDecode ({ shortKeyEvent with payload_hash := "" } : EventInput).author_pubkey
      = some [170] := by decide
  rw [this] at hpk
  cases hpk
  simp at hlen

theorem claim_C3_witness : effVerifies advCrypto { shortKeyEvent with payload_hash := "" } :=
  (claim_C3_amended advCrypto).1 _ (Reachable.push Store.empty [shortKeyEvent] Reachable.init)
    { server_seq := 1, ev := { shortKeyEvent with payload_hash := "" } } (List.Mem.head _)



/-- C5 amended: the actual error mapping of the signature-validation
stage. -/
theorem claim_C5_amended (c : Crypto) (ev : EventInput) :
    (hexDecode ev.author_pubkey = none →
      processEvent c ev = .error (400, "invalid author_pubkey hex"))
    ∧ (∀ pk, hexDecode ev.author_pubkey = some pk → hexDecode ev.signature = none →
      processEvent c ev = .error (400, "invalid signature hex"))
    ∧ (∀ pk sg, hexDecode ev.author_pubkey = some pk → hexDecode ev.signature = some sg →
      c.vkOk (effKey pk) = false →
      processEvent c ev = .error (401, "invalid public key"))
    ∧ (∀ pk sg, hexDecode ev.author_pubkey = some pk → hexDecode ev.signature = some sg →
      c.vkOk (effKey pk) = true → sg.length ≠ 64 →
      processEvent c ev = .error (401, "invalid signature length"))
    ∧ (∀ pk sg, hexDecode ev.author_pubkey = some pk → hexDecode ev.signature = some sg →
      c.vkOk (effKey pk) = true → sg.length = 64 →
      c.verify (effKey pk) (payloadBytesStr ev.payload_json) sg = false →
      processEvent c ev = .error (401, "invalid signature")) := by
  refine ⟨?_, ?_, ?_, ?_, ?_⟩
  · intro hpk
    unfold processEvent
    dsimp only
    rw [hpk]
  · intro pk hpk hsg
    unfold processEvent
    dsimp only
    rw [hpk, hsg]
  · intro pk sg hpk hsg hvk
    unfold processEvent
    dsimp only
    rw [hpk, hsg]
    dsimp only
    rw [show c.vkOk (if pk.length = 32 then pk else List.replicate 32 0) = false from hvk]
    rw [if_pos rfl]
  · intro pk sg hpk hsg hvk hlen
    unfold processEvent
    dsimp only
    rw [hpk, hsg]
    dsimp only
    rw [show c.vkOk (if pk.length = 32 then pk else List.replicate 32 0) = true from hvk]
    simp only [Bool.true_eq_false, if_false, if_neg, hlen, ite_true]
    rw [if_pos hlen]
  · intro pk sg hpk hsg hvk hlen hvf
    unfold processEvent
    dsimp only
    rw [hpk, hsg]
    dsimp only
    rw [show c.vkOk (if pk.length = 32 then pk else List.replicate 32 0) = true from hvk]
    simp only [Bool.true_eq_false, if_false]
    rw [if_neg (by omega : ¬ sg.length ≠ 64)]
    rw [show c.verify (if pk.length = 32 then pk else List.replicate 32 0)
        (payloadBytesStr ev.payload_json) sg = false from hvf]
    simp

theorem claim_C5_counterexample :
    processEvent advCrypto badHexEvent = .error (400, "invalid author_pubkey hex")
    ∧ ((400, "invalid author_pubkey hex") : Nat × String) ≠ (401, "invalid signature") :=
  ⟨rfl, by decide⟩

theorem claim_C5_witness :
    processEvent advCrypto { badHexEvent with signature := "q" }
      = .error (400, "invalid author_pubkey hex") :=
  (claim_C5_amended advCrypto { badHexEvent with signature := "q" }).1 (by decide)

/-- C1 amended: on batches of at most 100 events that pass the push
endpoint's schema validation, an authenticated inbound replication whose
loop and hop checks pass produces exactly the push endpoint's outcome
(both delegate to `validate_and_insert`); the batch-size gate and the
schema validation themselves run only on the push endpoint. -/
theorem claim_C1_amended (c : Crypto) (peers : List Peer) (relayId : String) (s : Store)
    (h : Headers) (events : List EventInput)
    (hsize : events.length ≤ 100)
    (hschema : schemaCheck events = none)
    (tb : List Nat) (htok : h.xPeerToken = some tb)
    (p : Peer) (hfind : peers.find? (fun q => q.shared_secret == (headerToStr tb).getD "") = some p)
    (hloop : ∀ rb, h.xRelayId = some rb → ∀ rid, headerToStr rb = some rid → rid ≠ relayId)
    (hhop : ∀ hb, h.xHop = some hb → ∀ hs, headerToStr hb = some hs →
        ∀ n, parseI32 hs = some n → n ≤ 3) :
    replicateHandler c peers relayId s h events = pushHandler c s events := by
  unfold replicateHandler pushHandler
  rw [htok]
  dsimp only
  rw [hfind]
  dsimp only
  have hloopb : (match h.xRelayId with
      | some rb =>
        match headerToStr rb with
        | some rid => rid == relayId
        | none => false
      | none => false) = false := by
    cases hrb : h.xRelayId with
    | none => rfl
    | some rb =>
      dsimp only
      cases hsr : headerToStr rb with
      | none => rfl
      | some rid =>
        dsimp only
        simpa using hloop rb hrb rid hsr
  have hhopb : (match h.xHop with
      | some hb =>
        match headerToStr hb with
        | some hs =>
          match parseI32 hs with
          | some hops => decide (3 < hops)
          | none => false
        | none => false
      | none => false) = false := by
    cases hhb : h.xHop with
    | none => rfl
    | some hb =>
      dsimp only
      cases hsr : headerToStr hb with
      | none => rfl
      | some hs =>
        dsimp only
        cases hn : parseI32 hs with
        | none => rfl
        | some n =>
          dsimp only
          have := hhop hb hhb hs hsr n hn
          simp only [decide_eq_false_iff_not]
          omega
  rw [hloopb, hhopb]
  rw [if_neg (by omega : ¬ 100 < events.length)]
  rw [hschema]
  simp

theorem claim_C1_counterexample :
    (pushHandler advCrypto Store.empty bigBatch).body = .err "batch size exceeds limit (100)"
    ∧ (replicateHandler advCrypto [peer0] "RID" Store.empty peerHeaders bigBatch).body
        = .err "invalid author_pubkey hex"
    ∧ (replicateHandler advCrypto [peer0] "RID" Store.empty peerHeaders bigBatch).body
        ≠ (pushHandler advCrypto Store.empty bigBatch).body
    ∧ (pushHandler advCrypto Store.empty [snapEvent]).body
        = .err "missing payload for event type \x27value.snapshot\x27"
    ∧ (replicateHandler advCrypto [peer0] "RID" Store.empty peerHeaders [snapEvent]).body
        = .err "invalid author_pubkey hex" := by
  refine ⟨rfl, rfl, ?_, rfl, rfl⟩
  intro hcontra
  rw [show (replicateHandler advCrypto [peer0] "RID" Store.empty peerHeaders bigBatch).body
      = .err "invalid author_pubkey hex" from rfl] at hcontra
  rw [show (pushHandler advCrypto Store.empty bigBatch).body
      = .err "batch size exceeds limit (100)" from rfl] at hcontra
  exact absurd hcontra (by decide)

theorem claim_C1_witness :
    replicateHandler advCrypto [peer0] "RID" Store.empty peerHeaders [baseEvent]
      = pushHandler advCrypto Store.empty [baseEvent] :=
  claim_C1_amended advCrypto [peer0] "RID" Store.empty peerHeaders [baseEvent]
    (by decide) rfl [115] rfl peer0 rfl
    (fun rb hrb => nomatch hrb) (fun hb hhb => nomatch hhb)

/-- C8: an authenticated inbound replication whose `X-Relay-Id` header
reads back as the recipient's own relay id is rejected with 400 and the
store is left unchanged. -/
theorem claim_C8 (c : Crypto) (peers : List Peer) (relayId : String) (s : Store)
    (h : Headers) (events : List EventInput)
    (tb : List Nat) (htok : h.xPeerToken = some tb)
    (p : Peer) (hfind : peers.find? (fun q => q.shared_secret == (headerToStr tb).getD "") = some p)
    (rb : List Nat) (hrid : h.xRelayId = some rb) (hstr : headerToStr rb = some relayId) :
    replicateHandler c peers relayId s h events =
      { status := 400, body := .err "loop detected: my own relay id", store := s } := by
  unfold replicateHandler
  rw [htok]
  dsimp only
  rw [hfind]
  dsimp only
  rw [hrid]
  dsimp only
  rw [hstr]
  simp

theorem claim_C8_witness :
    replicateHandler advCrypto [peer0] "RID" wStore
        { xPeerToken := some [115], xRelayId := some ridBytes, xHop := none } [baseEvent]
      = { status := 400, body := .err "loop detected: my own relay id", store := wStore } :=
  claim_C8 advCrypto [peer0] "RID" wStore _ [baseEvent] [115] rfl peer0 rfl ridBytes rfl rfl

/-- C10: after authentication and the loop check, the hop check rejects
with 400 "max hops exceeded" exactly when `X-Hop` is present, converts to
a string, and parses as an i32 greater than 3; in every other case
(absent header, non-ASCII bytes, unparseable or out-of-range text, or a
value of at most 3) the request proceeds to ingestion. -/
theorem claim_C10 (c : Crypto) (peers : List Peer) (relayId : String) (s : Store)
    (h : Headers) (events : List EventInput)
    (tb : List Nat) (htok : h.xPeerToken = some tb)
    (p : Peer) (hfind : peers.find? (fun q => q.shared_secret == (headerToStr tb).getD "") = some p)
    (hloop : ∀ rb, h.xRelayId = some rb → ∀ rid, headerToStr rb = some rid → rid ≠ relayId) :
    (∀ hb hs n, h.xHop = some hb → headerToStr hb = some hs → parseI32 hs = some n → 3 < n →
      replicateHandler c peers relayId s h events =
        { status := 400, body := .err "max hops exceeded", store := s })
    ∧ ((∀ hb hs n, h.xHop = some hb → headerToStr hb = some hs → parseI32 hs = some n → n ≤ 3) →
      replicateHandler c peers relayId s h events = ingestOutcome c s events) := by
  have hloopb : (match h.xRelayId with
      | some rb =>
        match headerToStr rb with
        | some rid => rid == relayId
        | none => false
      | none => false) = false := by
    cases hrb : h.xRelayId with
    | none => rfl
    | some rb =>
      dsimp only
      cases hsr : headerToStr rb with
      | none => rfl
      | some rid =>
        dsimp only
        simpa using hloop rb hrb rid hsr
  constructor
  · intro hb hs n hhb hsr hn hgt
    unfold replicateHandler
    rw [htok]
    dsimp only
    rw [hfind]
    dsimp only
    rw [hloopb]
    rw [if_neg Bool.false_ne_true]
    rw [hhb]
    dsimp only
    rw [hsr]
    dsimp only
    rw [hn]
    dsimp only
    rw [if_pos (by simpa using hgt)]
  · intro hhop
    unfold replicateHandler ingestOutcome
    rw [htok]
    dsimp only
    rw [hfind]
    dsimp only
    rw [hloopb]
    rw [if_neg Bool.false_ne_true]
    have hhopb : (match h.xHop with
        | some hb =>
          match headerToStr hb with
          | some hs =>
            match parseI32 hs with
            | some hops => decide (3 < hops)
            | none => false
          | none => false
        | none => false) = false := by
      cases hhb : h.xHop with
      | none => rfl
      | some hb =>
        dsimp only
        cases hsr : headerToStr hb with
        | none => rfl
        | some hs =>
          dsimp only
          cases hn : parseI32 hs with
          | none => rfl
          | some n =>
            dsimp only
            have := hhop hb hs n hhb hsr hn
            simp only [decide_eq_false_iff_not]
            omega
    rw [hhopb]
    simp

theorem claim_C10_witness :
    replicateHandler advCrypto [peer0] "RID" wStore
        { xPeerToken := some [115], xRelayId := none, xHop := some hop5Bytes } [baseEvent]
      = { status := 400, body := .err "max hops exceeded", store := wStore } :=
  (claim_C10 advCrypto [peer0] "RID" wStore
      { xPeerToken := some [115], xRelayId := none, xHop := some hop5Bytes } [baseEvent]
      [115] rfl peer0 rfl (fun rb hrb => nomatch hrb)).1
    hop5Bytes "5" 5 rfl rfl rfl (by decide)

/-- C9: with a nonempty batch, the peer's composite cursor advances to
the last sent event's `(occurred_at, event_id)` — wall clock substituted
for an absent `occurred_at` — exactly when the POST returned a 2xx
status; a non-2xx status or a transport error leaves every peer row
unchanged, and the cursor update touches only the addressed peer's
cursor columns. -/
theorem claim_C9 (s : Store) (peers : List Peer) (peer : Peer) (resp : Option Nat) (now : Int)
    (hne : fetchReplicationBatch s peer.last_cursor_time peer.last_cursor_id 50 ≠ []) :
    (∀ st, resp = some st → 200 ≤ st → st < 300 →
      ∀ last, (fetchReplicationBatch s peer.last_cursor_time peer.last_cursor_id 50).getLast?
          = some last →
        replicationStep s peers peer resp now =
          updatePeerCursor peers peer.peer_id (last.ev.occurred_at.getD now) last.ev.event_id)
    ∧ (resp = none → replicationStep s peers peer resp now = peers)
    ∧ (∀ st, resp = some st → ¬(200 ≤ st ∧ st < 300) →
        replicationStep s peers peer resp now = peers)
    ∧ (∀ pid t eid, ∀ q ∈ peers, q.peer_id ≠ pid → q ∈ updatePeerCursor peers pid t eid)
    ∧ (∀ pid t eid, ∀ q ∈ peers, q.peer_id = pid →
        { q with last_cursor_time := t, last_cursor_id := eid } ∈ updatePeerCursor peers pid t eid)
    := by
  refine ⟨?_, ?_, ?_, ?_, ?_⟩
  · intro st hst h200 h300 last hlast
    unfold replicationStep
    dsimp only
    cases hl : fetchReplicationBatch s peer.last_cursor_time peer.last_cursor_id 50 with
    | nil => exact absurd hl hne
    | cons a l =>
      rw [hl] at hlast
      rw [show (a :: l).isEmpty = false from rfl]
      rw [if_neg Bool.false_ne_true]
      rw [hst]
      dsimp only
      rw [if_pos ⟨h200, h300⟩]
      rw [hlast]
  · intro hnone
    unfold replicationStep
    dsimp only
    cases hl : fetchReplicationBatch s peer.last_cursor_time peer.last_cursor_id 50 with
    | nil => rfl
    | cons a l =>
      rw [show (a :: l).isEmpty = false from rfl]
      rw [if_neg Bool.false_ne_true]
      rw [hnone]
  · intro st hst hnot
    unfold replicationStep
    dsimp only
    cases hl : fetchReplicationBatch s peer.last_cursor_time peer.last_cursor_id 50 with
    | nil => rfl
    | cons a l =>
      rw [show (a :: l).isEmpty = false from rfl]
      rw [if_neg Bool.false_ne_true]
      rw [hst]
      dsimp only
      rw [if_neg hnot]
  · intro pid t eid q hq hne'
    unfold updatePeerCursor
    refine List.mem_map.mpr ⟨q, hq, ?_⟩
    rw [if_neg]
    simpa using hne'
  · intro pid t eid q hq heq
    unfold updatePeerCursor
    refine List.mem_map.mpr ⟨q, hq, ?_⟩
    rw [if_pos]
    simpa using heq

theorem claim_C9_witness :
    replicationStep wReplStore [peer0] peer0 (some 200) 99
      = updatePeerCursor [peer0] 1 10 42 := by
  have hfetch : fetchReplicationBatch wReplStore peer0.last_cursor_time peer0.last_cursor_id 50
      = [{ server_seq := 1, ev := { baseEvent with event_id := 42, occurred_at := some 10 } }] := by
    unfold fetchReplicationBatch
    rw [show wReplStore.rows.filter (replAfter peer0.last_cursor_time peer0.last_cursor_id)
        = [{ server_seq := 1, ev := { baseEvent with event_id := 42, occurred_at := some 10 } }]
        from rfl]
    rw [List.mergeSort_singleton]
    rfl
  exact (claim_C9 wReplStore [peer0] peer0 (some 200) 99
      (by rw [hfetch]; exact List.cons_ne_nil _ _)).1
    200 rfl (by decide) (by decide) _ (by rw [hfetch]; rfl)

lemma wf_rows_sorted {s : Store} (hwf : Wf s) :
    s.rows.Pairwise (fun a b => a.server_seq < b.server_seq) :=
  hwf.1.imp (fun h => h.1)

lemma filter_sorted {s : Store} (hwf : Wf s) (p : StoredEvent → Bool) :
    (s.rows.filter p).Pairwise (fun a b => a.server_seq < b.server_seq) :=
  List.Pairwise.sublist (List.filter_sublist _) (wf_rows_sorted hwf)

lemma mergeSort_seq_id {l : List StoredEvent}
    (hs : l.Pairwise (fun a b => a.server_seq < b.server_seq)) :
    l.mergeSort (fun a b => a.server_seq ≤ b.server_seq) = l :=
  List.mergeSort_of_sorted (hs.imp (fun h => by simpa using le_of_lt h))

/-- Under store well-formedness the `ORDER BY server_seq` of
`fetch_events_since` is the identity on the (already ascending) filtered
rows. -/
lemma fetchEventsSince_eq {s : Store} (hwf : Wf s) (since : Int) (lim : Nat) :
    fetchEventsSince s since lim =
      ((s.rows.filter (fun r => since < r.server_seq)).take lim,
       match ((s.rows.filter (fun r => since < r.server_seq)).take lim).getLast? with
       | some e => e.server_seq
       | none => since) := by
  unfold fetchEventsSince
  rw [mergeSort_seq_id (filter_sorted hwf _)]

/-- In a strictly `server_seq`-sorted list, the elements past the last
element of a nonempty `L`-prefix are exactly those beyond that prefix. -/
lemma sorted_take_last_filter : ∀ (L : Nat) (l : List StoredEvent),
    l.Pairwise (fun a b => a.server_seq < b.server_seq) → 1 ≤ L →
    ∀ last, (l.take L).getLast? = some last →
    l.filter (fun e => last.server_seq < e.server_seq) = l.drop L
  | _, [], _, _, last, hlast => by simp at hlast
  | 1, x :: xs, hp, _, last, hlast => by
    simp only [List.take_succ_cons, List.take_zero, List.getLast?_singleton,
      Option.some.injEq] at hlast
    subst hlast
    rw [List.drop_one, List.filter_cons, List.tail_cons]
    simp only [lt_self_iff_false, decide_False, Bool.false_eq_true, if_false]
    apply List.filter_eq_self.mpr
    intro a ha
    have := (List.pairwise_cons.mp hp).1 a ha
    simpa using this
  | L + 2, x :: xs, hp, _, last, hlast => by
    cases xs with
    | nil =>
      simp only [List.take_succ_cons, List.take_nil, List.getLast?_singleton,
        Option.some.injEq] at hlast
      subst hlast
      simp
    | cons y ys =>
      rw [List.take_succ_cons] at hlast
      have htake_ne : (y :: ys).take (L + 1) ≠ [] := by
        simp [List.take_succ_cons]
      have hlast' : ((y :: ys).take (L + 1)).getLast? = some last := by
        rcases hx : (y :: ys).take (L + 1) with _ | ⟨z, zs⟩
        · exact absurd hx htake_ne
        · rw [hx] at hlast
          rw [List.getLast?_cons_cons] at hlast
          exact hlast
      have hmem : last ∈ y :: ys :=
        List.mem_of_mem_take (List.mem_of_getLast?_eq_some hlast')
      have hxlast : x.server_seq < last.server_seq :=
        ((List.pairwise_cons.mp hp).1 last hmem)
      have ih := sorted_take_last_filter (L + 1) (y :: ys)
        (List.pairwise_cons.mp hp).2 (by omega) last hlast'
      rw [List.filter_cons]
      rw [if_neg (by simp; omega)]
      rw [ih]
      rfl



/-- Iterating `fetch_events_since` from cursor `c`, feeding `next_cursor`
back, enumerates exactly the rows with `server_seq > c` (given positive
limit and enough iterations). -/
lemma pullAll_enumerates {s : Store} (hwf : Wf s) {L : Nat} (hL : 1 ≤ L) :
    ∀ (fuel : Nat) (c : Int), (s.rows.filter (fun r => c < r.server_seq)).length ≤ fuel →
      pullAll s c L fuel = s.rows.filter (fun r => c < r.server_seq) := by
  intro fuel
  induction fuel with
  | zero =>
    intro c hlen
    have : s.rows.filter (fun r => c < r.server_seq) = [] :=
      List.eq_nil_of_length_eq_zero (Nat.le_zero.mp hlen)
    rw [this]
    rfl
  | succ fuel ih =>
    intro c hlen
    by_cases hl : s.rows.filter (fun r => c < r.server_seq) = []
    · unfold pullAll
      rw [fetchEventsSince_eq hwf]
      dsimp only
      rw [hl]
      simp
    · unfold pullAll
      rw [fetchEventsSince_eq hwf]
      dsimp only
      have htake_ne : (s.rows.filter (fun r => c < r.server_seq)).take L ≠ [] := by
        rw [Ne, List.take_eq_nil_iff]
        push_neg
        exact ⟨by omega, hl⟩
      obtain ⟨last, hlast⟩ : ∃ last,
          ((s.rows.filter (fun r => c < r.server_seq)).take L).getLast? = some last := by
        cases hg : ((s.rows.filter (fun r => c < r.server_seq)).take L).getLast? with
        | none => exact absurd (List.getLast?_eq_none_iff.mp hg) htake_ne
        | some a => exact ⟨a, rfl⟩
      rw [hlast]
      rw [if_neg (by simpa [List.isEmpty_iff] using htake_ne)]
      dsimp only
      have hclast : c < last.server_seq := by
        have hmem := List.mem_of_mem_take (List.mem_of_getLast?_eq_some hlast)
        simpa using (List.mem_filter.mp hmem).2
      have hfilter_eq : s.rows.filter (fun r => last.server_seq < r.server_seq)
          = (s.rows.filter (fun r => c < r.server_seq)).filter
              (fun r => last.server_seq < r.server_seq) := by
        rw [List.filter_filter]
        apply List.filter_congr
        intro r _
        by_cases hr : last.server_seq < r.server_seq
        · simp [hr, show c < r.server_seq from by omega]
        · simp [hr]
      have hdrop := sorted_take_last_filter L (s.rows.filter (fun r => c < r.server_seq))
        (filter_sorted hwf _) hL last hlast
      have hlen' : (s.rows.filter (fun r => last.server_seq < r.server_seq)).length ≤ fuel := by
        rw [hfilter_eq, hdrop]
        have h1 : 1 ≤ (s.rows.filter (fun r => c < r.server_seq)).length :=
          List.length_pos.mpr hl
        simp only [List.length_drop]
        omega
      rw [ih last.server_seq hlen']
      rw [hfilter_eq, hdrop]
      exact List.take_append_drop L _






/-- C6 amended: each `fetch_events_since(c, L)` call returns at most `L`
events — exactly the qualifying rows with the smallest `server_seq`
strictly above `c`, in ascending order — and `next_cursor` is the last
returned row's `server_seq` (the input cursor when empty); iterating with
`next_cursor` enumerates every row with `server_seq > c` exactly once in
ascending order provided the limit is at least 1. -/
theorem claim_C6_amended (s : Store) (hwf : Wf s) (since : Int) (lim : Nat) :
    (fetchEventsSince s since lim).1.length ≤ lim
    ∧ (∀ e ∈ (fetchEventsSince s since lim).1, e ∈ s.rows ∧ since < e.server_seq)
    ∧ (fetchEventsSince s since lim).1.Pairwise (fun a b => a.server_seq < b.server_seq)
    ∧ (∀ r ∈ s.rows, since < r.server_seq → r ∉ (fetchEventsSince s since lim).1 →
        ∀ e ∈ (fetchEventsSince s since lim).1, e.server_seq < r.server_seq)
    ∧ ((fetchEventsSince s since lim).1 = [] → (fetchEventsSince s since lim).2 = since)
    ∧ (∀ last, (fetchEventsSince s since lim).1.getLast? = some last →
        (fetchEventsSince s since lim).2 = last.server_seq)
    ∧ (∀ L fuel, 1 ≤ L → s.rows.length ≤ fuel →
        pullAll s since L fuel = s.rows.filter (fun r => since < r.server_seq))
    ∧ (s.rows.filter (fun r => since < r.server_seq)).Pairwise
        (fun a b => a.server_seq < b.server_seq ∧ a.ev.event_id ≠ b.ev.event_id) := by
  have hfe := fetchEventsSince_eq hwf since lim
  have h1 : (fetchEventsSince s since lim).1
      = (s.rows.filter (fun r => since < r.server_seq)).take lim := by rw [hfe]
  refine ⟨?_, ?_, ?_, ?_, ?_, ?_, ?_, ?_⟩
  · rw [h1]
    exact List.length_take_le lim _
  · intro e he
    rw [h1] at he
    have := List.mem_of_mem_take he
    have := List.mem_filter.mp this
    exact ⟨this.1, by simpa using this.2⟩
  · rw [h1]
    exact List.Pairwise.sublist (List.take_sublist _ _) (filter_sorted hwf _)
  · intro r hr hseq hnot e he
    rw [h1] at hnot he
    have hrl : r ∈ s.rows.filter (fun r => since < r.server_seq) :=
      List.mem_filter.mpr ⟨hr, by simpa using hseq⟩
    have hsplit : (s.rows.filter (fun r => since < r.server_seq)).take lim
        ++ (s.rows.filter (fun r => since < r.server_seq)).drop lim
        = s.rows.filter (fun r => since < r.server_seq) := List.take_append_drop _ _
    have hsort : ((s.rows.filter (fun r => since < r.server_seq)).take lim
        ++ (s.rows.filter (fun r => since < r.server_seq)).drop lim).Pairwise
          (fun a b => a.server_seq < b.server_seq) := by
      rw [hsplit]
      exact filter_sorted hwf _
    have hrdrop : r ∈ (s.rows.filter (fun r => since < r.server_seq)).drop lim := by
      have := hsplit ▸ hrl
      rcases List.mem_append.mp this with h | h
      · exact absurd h hnot
      · exact h
    exact (List.pairwise_append.mp hsort).2.2 e he r hrdrop
  · intro hempty
    rw [h1] at hempty
    rw [hfe]
    dsimp only
    rw [hempty]
    rfl
  · intro last hlast
    rw [h1] at hlast
    rw [hfe]
    dsimp only
    rw [hlast]
  · intro L fuel hL hfuel
    exact pullAll_enumerates hwf hL fuel since
      (le_trans (List.length_filter_le _ _) hfuel)
  · exact List.Pairwise.sublist (List.filter_sublist _) hwf.1

/-- The first fetch with limit 0 returns no events and does not advance
the cursor, so cursor iteration terminates at once having enumerated
nothing, although a row with `server_seq > 0` exists: the enumeration
property fails for limit 0. -/
theorem claim_C6_counterexample :
    fetchEventsSince wStore 0 0 = ([], 0)
    ∧ pullAll wStore 0 0 5 = []
    ∧ ∃ r ∈ wStore.rows, 0 < r.server_seq :=
  ⟨rfl, rfl, ⟨{ server_seq := 1, ev := baseEvent }, List.Mem.head _, by decide⟩⟩

theorem claim_C6_witness :
    pullAll wStore 0 1 1 = wStore.rows.filter (fun r => (0 : Int) < r.server_seq) :=
  ((claim_C6_amended wStore (by simp [Wf, wStore]) 0 1).2.2.2.2.2.2.1) 1 1
    (by decide) (by decide)

lemma replLe_trans : ∀ a b c : StoredEvent, replLe a b → replLe b c → replLe a c := by
  intro a b c hab hbc
  unfold replLe at *
  rcases ha : a.ev.occurred_at with _ | ta <;> rcases hb : b.ev.occurred_at with _ | tb <;>
    rcases hc : c.ev.occurred_at with _ | tc <;>
      (simp [ha, hb, hc] at *) <;> omega

lemma replLe_total : ∀ a b : StoredEvent, replLe a b || replLe b a := by
  intro a b
  unfold replLe
  rcases ha : a.ev.occurred_at with _ | ta <;> rcases hb : b.ev.occurred_at with _ | tb <;>
    simp <;> try omega

lemma replAfter_spec {t0 : Int} {id0 : Nat} {r : StoredEvent} (h : replAfter t0 id0 r = true) :
    ∃ te, r.ev.occurred_at = some te ∧ (t0 < te ∨ (te = t0 ∧ id0 < r.ev.event_id)) := by
  unfold replAfter at h
  rcases ho : r.ev.occurred_at with _ | t
  · rw [ho] at h
    cases h
  · rw [ho] at h
    refine ⟨t, rfl, ?_⟩
    simpa using h

/-- C7: the replication scan returns at most `lim` stored rows — exactly
those whose `(occurred_at, event_id)` is lexicographically past the
cursor, in ascending lexicographic order (a prefix of the full sorted
qualifying list) — and never a row with an absent `occurred_at`. -/
theorem claim_C7 (s : Store) (hwf : Wf s) (t0 : Int) (id0 : Nat) (lim : Nat) :
    (fetchReplicationBatch s t0 id0 lim).length ≤ lim
    ∧ (∀ e ∈ fetchReplicationBatch s t0 id0 lim, e ∈ s.rows)
    ∧ (∀ e ∈ fetchReplicationBatch s t0 id0 lim, ∃ te, e.ev.occurred_at = some te ∧
        (t0 < te ∨ (te = t0 ∧ id0 < e.ev.event_id)))
    ∧ (∀ r ∈ s.rows, r.ev.occurred_at = none → r ∉ fetchReplicationBatch s t0 id0 lim)
    ∧ (fetchReplicationBatch s t0 id0 lim).Pairwise replPairLt
    ∧ ∃ full : List StoredEvent, full.Perm (s.rows.filter (replAfter t0 id0))
        ∧ full.Pairwise replPairLt
        ∧ fetchReplicationBatch s t0 id0 lim = full.take lim := by
  have hperm : ((s.rows.filter (replAfter t0 id0)).mergeSort replLe).Perm
      (s.rows.filter (replAfter t0 id0)) := List.mergeSort_perm _ _
  have hsorted : ((s.rows.filter (replAfter t0 id0)).mergeSort replLe).Pairwise
      (fun a b => replLe a b) := List.sorted_mergeSort replLe_trans replLe_total _
  have hne : ((s.rows.filter (replAfter t0 id0)).mergeSort replLe).Pairwise
      (fun a b => a.ev.event_id ≠ b.ev.event_id) := by
    refine (List.Perm.pairwise_iff (fun h => h.symm) hperm).mpr ?_
    exact List.Pairwise.sublist (List.filter_sublist _) (hwf.1.imp (fun h => h.2))
  have hqual : ∀ x ∈ (s.rows.filter (replAfter t0 id0)).mergeSort replLe,
      replAfter t0 id0 x = true := by
    intro x hx
    exact (List.mem_filter.mp (hperm.mem_iff.mp hx)).2
  have hstrict : ((s.rows.filter (replAfter t0 id0)).mergeSort replLe).Pairwise replPairLt := by
    refine List.Pairwise.imp_of_mem ?_ (hsorted.and hne)
    intro a b ha hb hab
    obtain ⟨ta, hta, _⟩ := replAfter_spec (hqual a ha)
    obtain ⟨tb, htb, _⟩ := replAfter_spec (hqual b hb)
    rcases hab with ⟨hle, hneq⟩
    unfold replLe at hle
    unfold replPairLt
    rw [hta, htb] at hle ⊢
    simp at hle
    have : a.ev.event_id ≠ b.ev.event_id := hneq
    rcases hle with h | ⟨heq, hid⟩
    · exact Or.inl h
    · exact Or.inr ⟨heq, by omega⟩
  have hbatch : fetchReplicationBatch s t0 id0 lim
      = ((s.rows.filter (replAfter t0 id0)).mergeSort replLe).take lim := rfl
  refine ⟨?_, ?_, ?_, ?_, ?_, ?_⟩
  · rw [hbatch]
    exact List.length_take_le lim _
  · intro e he
    rw [hbatch] at he
    exact (List.mem_filter.mp (hperm.mem_iff.mp (List.mem_of_mem_take he))).1
  · intro e he
    rw [hbatch] at he
    exact replAfter_spec (hqual e (List.mem_of_mem_take he))
  · intro r hr hnone hmem
    rw [hbatch] at hmem
    obtain ⟨te, hte, _⟩ := replAfter_spec (hqual r (List.mem_of_mem_take hmem))
    rw [hnone] at hte
    cases hte
  · rw [hbatch]
    exact List.Pairwise.sublist (List.take_sublist _ _) hstrict
  · exact ⟨_, hperm, hstrict, hbatch⟩



theorem claim_C7_witness :
    ({ server_seq := 2, ev := { baseEvent with event_id := 43, occurred_at := none } }
        : StoredEvent) ∉ fetchReplicationBatch wC7Store 0 0 50 :=
  (claim_C7 wC7Store (by simp [Wf, wC7Store]) 0 0 50).2.2.2.1 _
    (List.Mem.tail _ (List.Mem.head _)) rfl

end TisaneRelay
